import Mathlib

/-!
Event types of `src/windows/macos_types.h`.

A shallow embedding of the declarations of the header: the enumeration
`EventType`, the four payload structs, the envelope `MacEvent` with its
anonymous union `data`, and the prototype `pollMacEvent`.

Three layers are modelled.

* **Values.**  Each C struct is a Lean structure whose fields carry the range
  of their C type (`unsigned short` is `Fin 65536`, ...).  An object of the
  enumerated type `EventType` holds any value of its underlying integer type;
  the six enumerators are six of these values.  A value given to the union is
  the value of one of its four members.  The `type` field is an independent
  field; the header has nothing that links it to the union member.
* **Layout.**  `sizeof` and `alignof` of every declared type, computed from the
  field lists with the natural C layout rules.
* **Object representation.**  The 32 bytes of the union and the loads and
  stores of every member field at the offset the layout gives it.  All four
  members start at offset 0 of the same bytes.

A `double` is carried as its 64-bit object representation; no floating point
arithmetic occurs in the header.  A `char` is carried as its byte, and so is a
`bool`: the bytes 0 and 1 are the values false and true, and a `bool` object
whose byte is another one has no value to read.  Integers
wider than a byte are stored least significant byte first, as on the targets
of the header.
-/

namespace MacosTypes

/-! ## Scalar types -/

/-- An `unsigned char`: one byte. -/
abbrev UChar := Fin 256

/-- A `char`, carried as the byte that represents it. -/
abbrev CChar := Fin 256

/-- An `unsigned short`: 16 bits. -/
abbrev UShort := Fin 65536

/-- An `unsigned int`: 32 bits. -/
abbrev UInt := Fin 4294967296

/-- A `double`, carried as its 64-bit object representation. -/
abbrev Double := Fin 18446744073709551616

/-- A `bool` object, carried as its byte. -/
structure CBool where
  byte : UChar
  deriving DecidableEq, Repr

namespace CBool

/-- The object a `bool` value is stored as: the byte 1 for true, 0 for
false. -/
def ofBool (b : Bool) : CBool := ⟨if b then 1 else 0⟩

/-- The value read from a `bool` object.  Only the bytes 0 and 1 are values
of `bool`; the read of any other byte is not defined. -/
def value (c : CBool) : Option Bool :=
  if c.byte = 0 then some false else if c.byte = 1 then some true else none

end CBool

/-- A `bool` value where a `bool` object is expected is the object it is
stored as. -/
instance : Coe Bool CBool := ⟨CBool.ofBool⟩

/-! ## The enumeration -/

/-- The enumeration constants of `EventType` (header lines 8-13). -/
inductive Enumerator where
  | EventTypeKeyDown
  | EventTypeKeyUp
  | EventTypeMouseDown
  | EventTypeMouseUp
  | EventTypeMouseMoved
  | EventTypeScrollWheel
  deriving DecidableEq, Repr

/-- The type `EventType` (header line 14).  An object of an enumerated type
holds any value of its underlying integer type, not only the values of the
enumerators; the underlying type is taken as `unsigned int`, 32 bits. -/
abbrev EventType := Fin 4294967296

namespace Enumerator

/-- The enumerators in declaration order. -/
def declared : List Enumerator :=
  [EventTypeKeyDown, EventTypeKeyUp, EventTypeMouseDown, EventTypeMouseUp,
   EventTypeMouseMoved, EventTypeScrollWheel]

/-- The integer value of an enumerator.  No enumerator of the header has an
explicit initialiser, so the first one is 0 and each next one is the previous
plus 1: the value is the position in the declaration. -/
def value (e : Enumerator) : Int :=
  Int.ofNat (declared.indexOf e)

/-- The enumerator as a value of type `EventType`. -/
def toEventType (e : Enumerator) : EventType :=
  ⟨declared.indexOf e % 4294967296, Nat.mod_lt _ (by decide)⟩

end Enumerator

/-- The integer encoding of a value of type `EventType`. -/
def EventType.toInt (t : EventType) : Int :=
  Int.ofNat t.val

/-! ## The payload structs -/

/-- The struct `KeyEventData` (header lines 16-22). -/
structure KeyEventData where
  keyCode : UShort
  modifiers : UInt
  isRepeat : CBool
  text : Fin 16 → CChar
  textLen : UChar

/-- The struct `MouseEventData` (header lines 24-27). -/
structure MouseEventData where
  x : Double
  y : Double

/-- The struct `MouseMoveEventData` (header lines 29-34). -/
structure MouseMoveEventData where
  x : Double
  y : Double
  deltaX : Double
  deltaY : Double

/-- The struct `ScrollEventData` (header lines 36-39). -/
structure ScrollEventData where
  deltaX : Double
  deltaY : Double

/-! ## The envelope -/

/-- The four members of the anonymous union `data` (header lines 43-48). -/
inductive Member where
  | key
  | mouse
  | mouseMove
  | scroll
  deriving DecidableEq, Repr

/-- A value given to the anonymous union `data` by an initialiser or an
assignment: the value of one of its members.  The union object itself is the
bytes `Storage` below; it is untagged and records no member. -/
inductive MacEventData where
  | key (k : KeyEventData)
  | mouse (m : MouseEventData)
  | mouseMove (mm : MouseMoveEventData)
  | scroll (s : ScrollEventData)

/-- The member through which a union value is given. -/
def MacEventData.member : MacEventData → Member
  | .key _ => .key
  | .mouse _ => .mouse
  | .mouseMove _ => .mouseMove
  | .scroll _ => .scroll

/-- The struct `MacEvent` (header lines 41-49): the field `type` and the
union `data`, two independent fields. -/
structure MacEvent where
  type : EventType
  data : MacEventData

/-! ## Layout -/

/-- Size and alignment of a C type, in bytes. -/
structure Layout where
  size : Nat
  align : Nat
  deriving DecidableEq, Repr

/-- The least multiple of `a` that is at least `off`. -/
def alignUp (off a : Nat) : Nat :=
  (off + a - 1) / a * a

namespace Layout

/-- A scalar of `n` bytes is aligned to its size. -/
def scalar (n : Nat) : Layout := ⟨n, n⟩

/-- An array of `n` elements. -/
def array (elem : Layout) (n : Nat) : Layout := ⟨elem.size * n, elem.align⟩

/-- The largest alignment among `fields` (1 for none). -/
def maxAlign (fields : List Layout) : Nat :=
  fields.foldl (fun a f => max a f.align) 1

/-- The offsets of the fields of a struct laid out from offset `off`: each
field goes to the next multiple of its alignment. -/
def offsetsFrom : Nat → List Layout → List Nat
  | _, [] => []
  | off, f :: fs => alignUp off f.align :: offsetsFrom (alignUp off f.align + f.size) fs

/-- The offset just past the last field of a struct laid out from `off`. -/
def endFrom : Nat → List Layout → Nat
  | off, [] => off
  | off, f :: fs => endFrom (alignUp off f.align + f.size) fs

/-- The offsets of the fields of a struct. -/
def offsets (fields : List Layout) : List Nat := offsetsFrom 0 fields

/-- A struct: the fields in order, the whole padded to the largest
alignment. -/
def struct (fields : List Layout) : Layout :=
  ⟨alignUp (endFrom 0 fields) (maxAlign fields), maxAlign fields⟩

/-- A union: every member at offset 0, the size of the largest member
padded to the largest alignment. -/
def union (members : List Layout) : Layout :=
  ⟨alignUp (members.foldl (fun s m => max s m.size) 0) (maxAlign members), maxAlign members⟩

end Layout

/-- Layout of `bool`. -/
def boolLayout : Layout := Layout.scalar 1
/-- Layout of `char`. -/
def charLayout : Layout := Layout.scalar 1
/-- Layout of `unsigned char`. -/
def ucharLayout : Layout := Layout.scalar 1
/-- Layout of `unsigned short`. -/
def ushortLayout : Layout := Layout.scalar 2
/-- Layout of `unsigned int`. -/
def uintLayout : Layout := Layout.scalar 4
/-- Layout of `double`. -/
def doubleLayout : Layout := Layout.scalar 8
/-- Layout of an enumeration, an `int`-sized scalar. -/
def enumLayout : Layout := Layout.scalar 4

/-- The fields of `KeyEventData` in declaration order. -/
def KeyEventData.fields : List Layout :=
  [ushortLayout, uintLayout, boolLayout, Layout.array charLayout 16, ucharLayout]

/-- The fields of `MouseEventData` in declaration order. -/
def MouseEventData.fields : List Layout := [doubleLayout, doubleLayout]

/-- The fields of `MouseMoveEventData` in declaration order. -/
def MouseMoveEventData.fields : List Layout :=
  [doubleLayout, doubleLayout, doubleLayout, doubleLayout]

/-- The fields of `ScrollEventData` in declaration order. -/
def ScrollEventData.fields : List Layout := [doubleLayout, doubleLayout]

/-- The value of `sizeof(KeyEventData)` and its alignment. -/
def KeyEventData.layout : Layout := Layout.struct KeyEventData.fields
/-- The value of `sizeof(MouseEventData)` and its alignment. -/
def MouseEventData.layout : Layout := Layout.struct MouseEventData.fields
/-- The value of `sizeof(MouseMoveEventData)` and its alignment. -/
def MouseMoveEventData.layout : Layout := Layout.struct MouseMoveEventData.fields
/-- The value of `sizeof(ScrollEventData)` and its alignment. -/
def ScrollEventData.layout : Layout := Layout.struct ScrollEventData.fields

/-- The layout of each member of the union `data`. -/
def Member.layout : Member → Layout
  | .key => KeyEventData.layout
  | .mouse => MouseEventData.layout
  | .mouseMove => MouseMoveEventData.layout
  | .scroll => ScrollEventData.layout

/-- The layout of the anonymous union `data`. -/
def MacEventData.layout : Layout :=
  Layout.union [Member.layout .key, Member.layout .mouse, Member.layout .mouseMove,
    Member.layout .scroll]

/-- The layout of `MacEvent`. -/
def MacEvent.layout : Layout := Layout.struct [enumLayout, MacEventData.layout]

/-! ## Object representation of the union -/

/-- The bytes of the union `data`, indexed by offset.  Its size, 32, is
`MacEventData.layout.size`. -/
abbrev Storage := Fin 32 → UChar

namespace Storage

/-- The byte at offset `i`. -/
def get (s : Storage) (i : Nat) : UChar :=
  if h : i < 32 then s ⟨i, h⟩ else 0

/-- Write one byte at offset `i`; the other bytes stay. -/
def set (s : Storage) (i : Nat) (b : Nat) : Storage :=
  fun j => if j.val = i then ⟨b % 256, Nat.mod_lt _ (by decide)⟩ else s j

/-- Store the `n`-byte unsigned integer `v` at offset `off`, least
significant byte first. -/
def storeLE : Storage → Nat → Nat → Nat → Storage
  | s, _, 0, _ => s
  | s, off, n + 1, v => storeLE (s.set off v) (off + 1) n (v / 256)

/-- Load the `n`-byte unsigned integer at offset `off`, least significant
byte first. -/
def loadLE (s : Storage) : Nat → Nat → Nat
  | _, 0 => 0
  | off, n + 1 => (s.get off).val + 256 * loadLE s (off + 1) n

/-- Store the `n` bytes `f 0, ..., f (n - 1)` of an array at offset `off`. -/
def storeArr (s : Storage) (off : Nat) : Nat → (Nat → Nat) → Storage
  | 0, _ => s
  | n + 1, f => (storeArr s off n f).set (off + n) (f n)

end Storage

open Storage

/-- Offset of the `i`-th field of a struct with the given fields. -/
def fieldOffset (fields : List Layout) (i : Nat) : Nat :=
  (Layout.offsets fields).getD i 0

/-- Load a `double` at offset `off`: 8 bytes, a value below `2 ^ 64`. -/
def loadDouble (s : Storage) (off : Nat) : Double :=
  ⟨loadLE s off 8 % 18446744073709551616, Nat.mod_lt _ (by decide)⟩

/-- Store a `double` at offset `off`. -/
def storeDouble (s : Storage) (off : Nat) (v : Double) : Storage :=
  storeLE s off 8 v.val

/-! ### The member `key` -/

namespace KeyEventData

/-- Offset of `keyCode`. -/
def offKeyCode : Nat := fieldOffset fields 0
/-- Offset of `modifiers`. -/
def offModifiers : Nat := fieldOffset fields 1
/-- Offset of `isRepeat`. -/
def offIsRepeat : Nat := fieldOffset fields 2
/-- Offset of `text`. -/
def offText : Nat := fieldOffset fields 3
/-- Offset of `textLen`. -/
def offTextLen : Nat := fieldOffset fields 4

/-- The assignment `data.key.keyCode = v`. -/
def storeKeyCode (s : Storage) (v : UShort) : Storage := storeLE s offKeyCode 2 v.val
/-- The assignment `data.key.modifiers = v`. -/
def storeModifiers (s : Storage) (v : UInt) : Storage := storeLE s offModifiers 4 v.val
/-- The assignment `data.key.isRepeat = v`: the byte of `v` is written. -/
def storeIsRepeat (s : Storage) (v : CBool) : Storage := s.set offIsRepeat v.byte.val
/-- The assignment `data.key.text[i] = c`. -/
def storeTextAt (s : Storage) (i : Fin 16) (c : CChar) : Storage := s.set (offText + i.val) c.val
/-- The assignment of all 16 bytes of `data.key.text`. -/
def storeText (s : Storage) (t : Fin 16 → CChar) : Storage :=
  storeArr s offText 16 (fun i => if h : i < 16 then (t ⟨i, h⟩).val else 0)
/-- The assignment `data.key.textLen = v`. -/
def storeTextLen (s : Storage) (v : UChar) : Storage := s.set offTextLen v.val

/-- The assignment `data.key = k`, field by field; padding bytes stay. -/
def store (s : Storage) (k : KeyEventData) : Storage :=
  storeTextLen (storeText (storeIsRepeat (storeModifiers (storeKeyCode s k.keyCode)
    k.modifiers) k.isRepeat) k.text) k.textLen

/-- The value read as `data.key`.  The byte of `isRepeat` is read as it is;
`CBool.value` tells whether it is a value of `bool`. -/
def load (s : Storage) : KeyEventData where
  keyCode := ⟨loadLE s offKeyCode 2 % 65536, Nat.mod_lt _ (by decide)⟩
  modifiers := ⟨loadLE s offModifiers 4 % 4294967296, Nat.mod_lt _ (by decide)⟩
  isRepeat := ⟨s.get offIsRepeat⟩
  text := fun i => s.get (offText + i.val)
  textLen := s.get offTextLen

end KeyEventData

/-! ### The member `mouse` -/

namespace MouseEventData

/-- Offset of `x`. -/
def offX : Nat := fieldOffset fields 0
/-- Offset of `y`. -/
def offY : Nat := fieldOffset fields 1

/-- The assignment `data.mouse.x = v`. -/
def storeX (s : Storage) (v : Double) : Storage := storeDouble s offX v
/-- The assignment `data.mouse.y = v`. -/
def storeY (s : Storage) (v : Double) : Storage := storeDouble s offY v

/-- The assignment `data.mouse = m`. -/
def store (s : Storage) (m : MouseEventData) : Storage := storeY (storeX s m.x) m.y

/-- The value read as `data.mouse`. -/
def load (s : Storage) : MouseEventData where
  x := loadDouble s offX
  y := loadDouble s offY

end MouseEventData

/-! ### The member `mouseMove` -/

namespace MouseMoveEventData

/-- Offset of `x`. -/
def offX : Nat := fieldOffset fields 0
/-- Offset of `y`. -/
def offY : Nat := fieldOffset fields 1
/-- Offset of `deltaX`. -/
def offDeltaX : Nat := fieldOffset fields 2
/-- Offset of `deltaY`. -/
def offDeltaY : Nat := fieldOffset fields 3

/-- The assignment `data.mouseMove.x = v`. -/
def storeX (s : Storage) (v : Double) : Storage := storeDouble s offX v
/-- The assignment `data.mouseMove.y = v`. -/
def storeY (s : Storage) (v : Double) : Storage := storeDouble s offY v
/-- The assignment `data.mouseMove.deltaX = v`. -/
def storeDeltaX (s : Storage) (v : Double) : Storage := storeDouble s offDeltaX v
/-- The assignment `data.mouseMove.deltaY = v`. -/
def storeDeltaY (s : Storage) (v : Double) : Storage := storeDouble s offDeltaY v

/-- The assignment `data.mouseMove = mm`. -/
def store (s : Storage) (mm : MouseMoveEventData) : Storage :=
  storeDeltaY (storeDeltaX (storeY (storeX s mm.x) mm.y) mm.deltaX) mm.deltaY

/-- The value read as `data.mouseMove`. -/
def load (s : Storage) : MouseMoveEventData where
  x := loadDouble s offX
  y := loadDouble s offY
  deltaX := loadDouble s offDeltaX
  deltaY := loadDouble s offDeltaY

end MouseMoveEventData

/-! ### The member `scroll` -/

namespace ScrollEventData

/-- Offset of `deltaX`. -/
def offDeltaX : Nat := fieldOffset fields 0
/-- Offset of `deltaY`. -/
def offDeltaY : Nat := fieldOffset fields 1

/-- The assignment `data.scroll.deltaX = v`. -/
def storeDeltaX (s : Storage) (v : Double) : Storage := storeDouble s offDeltaX v
/-- The assignment `data.scroll.deltaY = v`. -/
def storeDeltaY (s : Storage) (v : Double) : Storage := storeDouble s offDeltaY v

/-- The assignment `data.scroll = sc`. -/
def store (s : Storage) (sc : ScrollEventData) : Storage :=
  storeDeltaY (storeDeltaX s sc.deltaX) sc.deltaY

/-- The value read as `data.scroll`. -/
def load (s : Storage) : ScrollEventData where
  deltaX := loadDouble s offDeltaX
  deltaY := loadDouble s offDeltaY

end ScrollEventData

/-! ### The envelope as an object -/

/-- Store a union value: the bytes of the member it holds are written, the
other bytes of the union stay. -/
def MacEventData.store (s : Storage) : MacEventData → Storage
  | .key k => KeyEventData.store s k
  | .mouse m => MouseEventData.store s m
  | .mouseMove mm => MouseMoveEventData.store s mm
  | .scroll sc => ScrollEventData.store s sc

/-- A `MacEvent` object: the field `type` and the bytes of the union. -/
structure MacEventObject where
  type : EventType
  data : Storage

namespace MacEventObject

/-- Construct the envelope `e` in the object `o`, which held anything
before. -/
def assign (o : MacEventObject) (e : MacEvent) : MacEventObject :=
  ⟨e.type, e.data.store o.data⟩

/-- The read `o.data.key`. -/
def key (o : MacEventObject) : KeyEventData := KeyEventData.load o.data
/-- The read `o.data.mouse`. -/
def mouse (o : MacEventObject) : MouseEventData := MouseEventData.load o.data
/-- The read `o.data.mouseMove`. -/
def mouseMove (o : MacEventObject) : MouseMoveEventData := MouseMoveEventData.load o.data
/-- The read `o.data.scroll`. -/
def scroll (o : MacEventObject) : ScrollEventData := ScrollEventData.load o.data

/-- The read of the member `m` of the union, as a union value. -/
def read (o : MacEventObject) : Member → MacEventData
  | .key => .key o.key
  | .mouse => .mouse o.mouse
  | .mouseMove => .mouseMove o.mouseMove
  | .scroll => .scroll o.scroll

end MacEventObject

/-! ## The polling function -/

/-- Modelled from the spec: the body of `pollMacEvent`, of which the header
has only the prototype `bool pollMacEvent(MacEvent *outEvent)` (line 51).
The spec says it "takes a mutable output slot for one event envelope; returns
a boolean indicating whether an event was available and written".  The event
the platform has available at the call, if any, is the argument `available`;
the result is the returned boolean and the slot after the call.  The spec does
not say what the slot holds when nothing was available; it is left as it
was. -/
def pollMacEvent (available : Option MacEvent) (outEvent : MacEvent) : Bool × MacEvent :=
  match available with
  | some e => (true, e)
  | none => (false, outEvent)

/-! ## Concrete values -/

/-- Union bytes that are all zero. -/
def zeroStorage : Storage := fun _ => 0

/-- A key payload whose `textLen` is 17, one more than the 16 bytes of
`text`. -/
def keyTextLen17 : KeyEventData := ⟨0, 0, false, fun _ => 0, 17⟩

/-- A key payload with `keyCode` 5. -/
def keyCode5 : KeyEventData := ⟨5, 0, false, fun _ => 0, 0⟩

/-- The envelope `{ .type = EventTypeKeyDown, .data.key = keyCode5 }`. -/
def keyDownWithKey : MacEvent := ⟨Enumerator.EventTypeKeyDown.toEventType, .key keyCode5⟩

/-- The envelope `{ .type = EventTypeKeyDown, .data.scroll = ... }`, the two
deltas with the bit patterns 1 and 2. -/
def keyDownWithScroll : MacEvent :=
  ⟨Enumerator.EventTypeKeyDown.toEventType, .scroll ⟨1, 2⟩⟩

/-- A mouse payload with `x` of bit pattern 5 and `y` of bit pattern 0. -/
def mouseX5 : MouseEventData := ⟨5, 0⟩

/-- The envelope `{ .type = EventTypeMouseDown, .data.mouse = mouseX5 }`. -/
def mouseDownWithMouse : MacEvent :=
  ⟨Enumerator.EventTypeMouseDown.toEventType, .mouse mouseX5⟩

/-- The value `(EventType)7`, which no enumerator has. -/
def undeclaredTag : EventType := 7

/-- An object whose union bytes are all zero. -/
def zeroObject : MacEventObject := ⟨Enumerator.EventTypeKeyDown.toEventType, zeroStorage⟩

/-! ## Values of `bool` -/

theorem value_ofBool (b : Bool) : (CBool.ofBool b).value = some b := by
  cases b <;> rfl

/-! ## Loads and stores on the bytes -/

namespace Storage

theorem get_set_ne (s : Storage) {i j : Nat} (b : Nat) (h : j ≠ i) :
    (s.set i b).get j = s.get j := by
  unfold get set
  by_cases hj : j < 32
  · simp [hj, h]
  · simp [hj]

theorem get_set_eq (s : Storage) {i : Nat} (b : Nat) (h : i < 32) :
    ((s.set i b).get i).val = b % 256 := by
  simp [get, set, h]

theorem get_storeLE_outside (s : Storage) (off n v j : Nat) (h : j < off ∨ off + n ≤ j) :
    (storeLE s off n v).get j = s.get j := by
  induction n generalizing s off v with
  | zero => rfl
  | succ n ih =>
    rw [storeLE, ih _ _ _ (by omega), get_set_ne _ _ (by omega)]

theorem loadLE_congr (s t : Storage) (off n : Nat)
    (h : ∀ j, off ≤ j → j < off + n → t.get j = s.get j) :
    loadLE t off n = loadLE s off n := by
  induction n generalizing off with
  | zero => rfl
  | succ n ih =>
    rw [loadLE, loadLE, h off (le_refl _) (by omega),
      ih (off + 1) (fun j h1 h2 => h j (by omega) (by omega))]

theorem loadLE_set_disjoint (s : Storage) (i b off n : Nat) (h : i < off ∨ off + n ≤ i) :
    loadLE (s.set i b) off n = loadLE s off n :=
  loadLE_congr _ _ _ _ (fun _ _ _ => get_set_ne _ _ (by omega))

theorem loadLE_storeLE_disjoint (s : Storage) (off1 n1 v off n : Nat)
    (h : off1 + n1 ≤ off ∨ off + n ≤ off1) :
    loadLE (storeLE s off1 n1 v) off n = loadLE s off n :=
  loadLE_congr _ _ _ _ (fun _ _ _ => get_storeLE_outside _ _ _ _ _ (by omega))

theorem loadLE_storeLE_same (s : Storage) (off n v : Nat) (h : off + n ≤ 32) :
    loadLE (storeLE s off n v) off n = v % 256 ^ n := by
  induction n generalizing s off v with
  | zero => simp [loadLE, Nat.mod_one]
  | succ n ih =>
    rw [storeLE, loadLE, ih _ _ _ (by omega), get_storeLE_outside _ _ _ _ _ (by omega),
      get_set_eq _ _ (by omega), pow_succ, Nat.mul_comm (256 ^ n) 256, Nat.mod_mul]

theorem get_storeArr_outside (s : Storage) (off n : Nat) (f : Nat → Nat) (j : Nat)
    (h : j < off ∨ off + n ≤ j) : (storeArr s off n f).get j = s.get j := by
  induction n with
  | zero => rfl
  | succ n ih => rw [storeArr, get_set_ne _ _ (by omega), ih (by omega)]

theorem get_storeArr_inside (s : Storage) (off n : Nat) (f : Nat → Nat) (i : Nat)
    (hi : i < n) (h : off + n ≤ 32) : ((storeArr s off n f).get (off + i)).val = f i % 256 := by
  induction n with
  | zero => omega
  | succ n ih =>
    rw [storeArr]
    by_cases hin : i = n
    · subst hin
      exact get_set_eq _ _ (by omega)
    · rw [get_set_ne _ _ (by omega)]
      exact ih (by omega) (by omega)

theorem loadLE_storeArr_disjoint (s : Storage) (off1 n1 : Nat) (f : Nat → Nat) (off n : Nat)
    (h : off1 + n1 ≤ off ∨ off + n ≤ off1) :
    loadLE (storeArr s off1 n1 f) off n = loadLE s off n :=
  loadLE_congr _ _ _ _ (fun _ _ _ => get_storeArr_outside _ _ _ _ _ (by omega))

end Storage


theorem loadDouble_storeDouble_same (s : Storage) (off : Nat) (v : Double) (h : off + 8 ≤ 32) :
    loadDouble (storeDouble s off v) off = v := by
  have hv := v.isLt
  apply Fin.ext
  simp only [loadDouble, storeDouble]
  rw [loadLE_storeLE_same _ _ _ _ h]
  omega

theorem loadDouble_storeDouble_disjoint (s : Storage) (off1 off : Nat) (v : Double)
    (h : off1 + 8 ≤ off ∨ off + 8 ≤ off1) :
    loadDouble (storeDouble s off1 v) off = loadDouble s off := by
  apply Fin.ext
  simp only [loadDouble, storeDouble]
  rw [loadLE_storeLE_disjoint _ _ _ _ _ _ h]

/-! ## The member `key`: loads after stores -/

namespace KeyEventData

theorem key_offKeyCode_eq : offKeyCode = 0 := by decide
theorem key_offModifiers_eq : offModifiers = 4 := by decide
theorem key_offIsRepeat_eq : offIsRepeat = 8 := by decide
theorem key_offText_eq : offText = 9 := by decide
theorem key_offTextLen_eq : offTextLen = 25 := by decide

theorem key_eq_of_fields {a b : KeyEventData} (h1 : a.keyCode = b.keyCode)
    (h2 : a.modifiers = b.modifiers) (h3 : a.isRepeat = b.isRepeat)
    (h4 : ∀ i, a.text i = b.text i) (h5 : a.textLen = b.textLen) : a = b := by
  cases a; cases b
  simp only [mk.injEq]
  exact ⟨h1, h2, h3, funext h4, h5⟩

theorem key_load_storeKeyCode (s : Storage) (v : UShort) :
    load (storeKeyCode s v) = { load s with keyCode := v } := by
  have hv := v.isLt
  apply key_eq_of_fields
  · apply Fin.ext
    simp only [load, storeKeyCode, key_offKeyCode_eq]
    rw [loadLE_storeLE_same _ _ _ _ (by omega)]
    omega
  · apply Fin.ext
    simp only [load, storeKeyCode, key_offKeyCode_eq, key_offModifiers_eq]
    rw [loadLE_storeLE_disjoint _ _ _ _ _ _ (by omega)]
  · simp only [load, storeKeyCode, key_offKeyCode_eq, key_offIsRepeat_eq]
    rw [get_storeLE_outside _ _ _ _ _ (by omega)]
  · intro i
    simp only [load, storeKeyCode, key_offKeyCode_eq, key_offText_eq]
    rw [get_storeLE_outside _ _ _ _ _ (by omega)]
  · simp only [load, storeKeyCode, key_offKeyCode_eq, key_offTextLen_eq]
    rw [get_storeLE_outside _ _ _ _ _ (by omega)]

theorem key_load_storeModifiers (s : Storage) (v : UInt) :
    load (storeModifiers s v) = { load s with modifiers := v } := by
  have hv := v.isLt
  apply key_eq_of_fields
  · apply Fin.ext
    simp only [load, storeModifiers, key_offKeyCode_eq, key_offModifiers_eq]
    rw [loadLE_storeLE_disjoint _ _ _ _ _ _ (by omega)]
  · apply Fin.ext
    simp only [load, storeModifiers, key_offModifiers_eq]
    rw [loadLE_storeLE_same _ _ _ _ (by omega)]
    omega
  · simp only [load, storeModifiers, key_offModifiers_eq, key_offIsRepeat_eq]
    rw [get_storeLE_outside _ _ _ _ _ (by omega)]
  · intro i
    simp only [load, storeModifiers, key_offModifiers_eq, key_offText_eq]
    rw [get_storeLE_outside _ _ _ _ _ (by omega)]
  · simp only [load, storeModifiers, key_offModifiers_eq, key_offTextLen_eq]
    rw [get_storeLE_outside _ _ _ _ _ (by omega)]

theorem key_load_storeIsRepeat (s : Storage) (v : CBool) :
    load (storeIsRepeat s v) = { load s with isRepeat := v } := by
  apply key_eq_of_fields
  · apply Fin.ext
    simp only [load, storeIsRepeat, key_offKeyCode_eq, key_offIsRepeat_eq]
    rw [loadLE_set_disjoint _ _ _ _ _ (by omega)]
  · apply Fin.ext
    simp only [load, storeIsRepeat, key_offModifiers_eq, key_offIsRepeat_eq]
    rw [loadLE_set_disjoint _ _ _ _ _ (by omega)]
  · have hv := v.byte.isLt
    simp only [load, storeIsRepeat, key_offIsRepeat_eq]
    cases v with
    | mk b =>
      simp only [CBool.mk.injEq]
      apply Fin.ext
      rw [get_set_eq _ _ (by omega)]
      exact Nat.mod_eq_of_lt b.isLt
  · intro i
    simp only [load, storeIsRepeat, key_offIsRepeat_eq, key_offText_eq]
    rw [get_set_ne _ _ (by omega)]
  · simp only [load, storeIsRepeat, key_offIsRepeat_eq, key_offTextLen_eq]
    rw [get_set_ne _ _ (by omega)]

theorem key_load_storeTextAt (s : Storage) (i : Fin 16) (c : CChar) :
    load (storeTextAt s i c) = { load s with text := Function.update (load s).text i c } := by
  have hc := c.isLt
  have hi := i.isLt
  apply key_eq_of_fields
  · apply Fin.ext
    simp only [load, storeTextAt, key_offKeyCode_eq, key_offText_eq]
    rw [loadLE_set_disjoint _ _ _ _ _ (by omega)]
  · apply Fin.ext
    simp only [load, storeTextAt, key_offModifiers_eq, key_offText_eq]
    rw [loadLE_set_disjoint _ _ _ _ _ (by omega)]
  · simp only [load, storeTextAt, key_offIsRepeat_eq, key_offText_eq]
    rw [get_set_ne _ _ (by omega)]
  · intro j
    simp only [load, storeTextAt, key_offText_eq]
    by_cases hji : j = i
    · subst hji
      rw [Function.update_same]
      apply Fin.ext
      rw [get_set_eq _ _ (by omega)]
      omega
    · rw [Function.update_noteq hji]
      have : j.val ≠ i.val := fun h => hji (Fin.ext h)
      rw [get_set_ne _ _ (by omega)]
  · simp only [load, storeTextAt, key_offText_eq, key_offTextLen_eq]
    rw [get_set_ne _ _ (by omega)]

theorem key_load_storeText (s : Storage) (t : Fin 16 → CChar) :
    load (storeText s t) = { load s with text := t } := by
  apply key_eq_of_fields
  · apply Fin.ext
    simp only [load, storeText, key_offKeyCode_eq, key_offText_eq]
    rw [loadLE_storeArr_disjoint _ _ _ _ _ _ (by omega)]
  · apply Fin.ext
    simp only [load, storeText, key_offModifiers_eq, key_offText_eq]
    rw [loadLE_storeArr_disjoint _ _ _ _ _ _ (by omega)]
  · simp only [load, storeText, key_offIsRepeat_eq, key_offText_eq]
    rw [get_storeArr_outside _ _ _ _ _ (by omega)]
  · intro j
    have hj := j.isLt
    have ht := (t j).isLt
    simp only [load, storeText, key_offText_eq]
    apply Fin.ext
    rw [get_storeArr_inside _ _ _ _ _ hj (by omega)]
    simp only [hj, dite_true, Fin.eta]
    omega
  · simp only [load, storeText, key_offText_eq, key_offTextLen_eq]
    rw [get_storeArr_outside _ _ _ _ _ (by omega)]

theorem key_load_storeTextLen (s : Storage) (v : UChar) :
    load (storeTextLen s v) = { load s with textLen := v } := by
  have hv := v.isLt
  apply key_eq_of_fields
  · apply Fin.ext
    simp only [load, storeTextLen, key_offKeyCode_eq, key_offTextLen_eq]
    rw [loadLE_set_disjoint _ _ _ _ _ (by omega)]
  · apply Fin.ext
    simp only [load, storeTextLen, key_offModifiers_eq, key_offTextLen_eq]
    rw [loadLE_set_disjoint _ _ _ _ _ (by omega)]
  · simp only [load, storeTextLen, key_offIsRepeat_eq, key_offTextLen_eq]
    rw [get_set_ne _ _ (by omega)]
  · intro i
    simp only [load, storeTextLen, key_offText_eq, key_offTextLen_eq]
    rw [get_set_ne _ _ (by omega)]
  · simp only [load, storeTextLen, key_offTextLen_eq]
    apply Fin.ext
    rw [get_set_eq _ _ (by omega)]
    omega

theorem key_load_store (s : Storage) (k : KeyEventData) : load (store s k) = k := by
  rw [store, key_load_storeTextLen, key_load_storeText, key_load_storeIsRepeat, key_load_storeModifiers,
    key_load_storeKeyCode]

end KeyEventData

/-! ## The members `mouse`, `mouseMove` and `scroll`: loads after stores -/

namespace MouseEventData

theorem mouse_offX_eq : offX = 0 := by decide
theorem mouse_offY_eq : offY = 8 := by decide

theorem mouse_load_storeX (s : Storage) (v : Double) : load (storeX s v) = { load s with x := v } := by
  simp only [load, storeX, mouse_offX_eq, mouse_offY_eq, mk.injEq]
  exact ⟨loadDouble_storeDouble_same _ _ _ (by omega),
    loadDouble_storeDouble_disjoint _ _ _ _ (by omega)⟩

theorem mouse_load_storeY (s : Storage) (v : Double) : load (storeY s v) = { load s with y := v } := by
  simp only [load, storeY, mouse_offX_eq, mouse_offY_eq, mk.injEq]
  exact ⟨loadDouble_storeDouble_disjoint _ _ _ _ (by omega),
    loadDouble_storeDouble_same _ _ _ (by omega)⟩

theorem mouse_load_store (s : Storage) (m : MouseEventData) : load (store s m) = m := by
  rw [store, mouse_load_storeY, mouse_load_storeX]

end MouseEventData

namespace MouseMoveEventData

theorem mouseMove_offX_eq : offX = 0 := by decide
theorem mouseMove_offY_eq : offY = 8 := by decide
theorem mouseMove_offDeltaX_eq : offDeltaX = 16 := by decide
theorem mouseMove_offDeltaY_eq : offDeltaY = 24 := by decide

theorem mouseMove_load_storeX (s : Storage) (v : Double) : load (storeX s v) = { load s with x := v } := by
  simp only [load, storeX, mouseMove_offX_eq, mouseMove_offY_eq, mouseMove_offDeltaX_eq, mouseMove_offDeltaY_eq, mk.injEq]
  exact ⟨loadDouble_storeDouble_same _ _ _ (by omega),
    loadDouble_storeDouble_disjoint _ _ _ _ (by omega),
    loadDouble_storeDouble_disjoint _ _ _ _ (by omega),
    loadDouble_storeDouble_disjoint _ _ _ _ (by omega)⟩

theorem mouseMove_load_storeY (s : Storage) (v : Double) : load (storeY s v) = { load s with y := v } := by
  simp only [load, storeY, mouseMove_offX_eq, mouseMove_offY_eq, mouseMove_offDeltaX_eq, mouseMove_offDeltaY_eq, mk.injEq]
  exact ⟨loadDouble_storeDouble_disjoint _ _ _ _ (by omega),
    loadDouble_storeDouble_same _ _ _ (by omega),
    loadDouble_storeDouble_disjoint _ _ _ _ (by omega),
    loadDouble_storeDouble_disjoint _ _ _ _ (by omega)⟩

theorem mouseMove_load_storeDeltaX (s : Storage) (v : Double) :
    load (storeDeltaX s v) = { load s with deltaX := v } := by
  simp only [load, storeDeltaX, mouseMove_offX_eq, mouseMove_offY_eq, mouseMove_offDeltaX_eq, mouseMove_offDeltaY_eq, mk.injEq]
  exact ⟨loadDouble_storeDouble_disjoint _ _ _ _ (by omega),
    loadDouble_storeDouble_disjoint _ _ _ _ (by omega),
    loadDouble_storeDouble_same _ _ _ (by omega),
    loadDouble_storeDouble_disjoint _ _ _ _ (by omega)⟩

theorem mouseMove_load_storeDeltaY (s : Storage) (v : Double) :
    load (storeDeltaY s v) = { load s with deltaY := v } := by
  simp only [load, storeDeltaY, mouseMove_offX_eq, mouseMove_offY_eq, mouseMove_offDeltaX_eq, mouseMove_offDeltaY_eq, mk.injEq]
  exact ⟨loadDouble_storeDouble_disjoint _ _ _ _ (by omega),
    loadDouble_storeDouble_disjoint _ _ _ _ (by omega),
    loadDouble_storeDouble_disjoint _ _ _ _ (by omega),
    loadDouble_storeDouble_same _ _ _ (by omega)⟩

theorem mouseMove_load_store (s : Storage) (mm : MouseMoveEventData) : load (store s mm) = mm := by
  rw [store, mouseMove_load_storeDeltaY, mouseMove_load_storeDeltaX, mouseMove_load_storeY, mouseMove_load_storeX]

end MouseMoveEventData

namespace ScrollEventData

theorem scroll_offDeltaX_eq : offDeltaX = 0 := by decide
theorem scroll_offDeltaY_eq : offDeltaY = 8 := by decide

theorem scroll_load_storeDeltaX (s : Storage) (v : Double) :
    load (storeDeltaX s v) = { load s with deltaX := v } := by
  simp only [load, storeDeltaX, scroll_offDeltaX_eq, scroll_offDeltaY_eq, mk.injEq]
  exact ⟨loadDouble_storeDouble_same _ _ _ (by omega),
    loadDouble_storeDouble_disjoint _ _ _ _ (by omega)⟩

theorem scroll_load_storeDeltaY (s : Storage) (v : Double) :
    load (storeDeltaY s v) = { load s with deltaY := v } := by
  simp only [load, storeDeltaY, scroll_offDeltaX_eq, scroll_offDeltaY_eq, mk.injEq]
  exact ⟨loadDouble_storeDouble_disjoint _ _ _ _ (by omega),
    loadDouble_storeDouble_same _ _ _ (by omega)⟩

theorem scroll_load_store (s : Storage) (sc : ScrollEventData) : load (store s sc) = sc := by
  rw [store, scroll_load_storeDeltaY, scroll_load_storeDeltaX]

end ScrollEventData

/-! ## The envelope: reading back what was stored -/

theorem MacEventObject.read_assign (o : MacEventObject) (e : MacEvent) :
    (o.assign e).read e.data.member = e.data := by
  obtain ⟨t, d⟩ := e
  cases d with
  | key k =>
    simp only [MacEventObject.assign, MacEventData.member, MacEventObject.read,
      MacEventObject.key, MacEventData.store, KeyEventData.key_load_store]
  | mouse m =>
    simp only [MacEventObject.assign, MacEventData.member, MacEventObject.read,
      MacEventObject.mouse, MacEventData.store, MouseEventData.mouse_load_store]
  | mouseMove mm =>
    simp only [MacEventObject.assign, MacEventData.member, MacEventObject.read,
      MacEventObject.mouseMove, MacEventData.store, MouseMoveEventData.mouseMove_load_store]
  | scroll sc =>
    simp only [MacEventObject.assign, MacEventData.member, MacEventObject.read,
      MacEventObject.scroll, MacEventData.store, ScrollEventData.scroll_load_store]

theorem MacEventObject.member_read (o : MacEventObject) (m : Member) :
    (o.read m).member = m := by
  cases m <;> rfl

/-! ## The claims -/

/-- C1, as stated, fails: `keyTextLen17` is a `KeyEventData` whose `textLen`
is 17, above the 16 bytes of `text`, and storing it in the union and loading
it back returns the 17 unchanged. -/
theorem textLen_above_capacity :
    keyTextLen17.textLen.val = 17 ∧ ¬ (keyTextLen17.textLen.val ≤ 16) ∧
    (KeyEventData.load (KeyEventData.store zeroStorage keyTextLen17)).textLen.val = 17 := by
  refine ⟨by decide, by decide, ?_⟩
  rw [KeyEventData.key_load_store]
  decide

/-- C1, amended: the `textLen` of every `KeyEventData` is in the range of
`unsigned char`, 0 to 255; every value of that range is the `textLen` of some
`KeyEventData`, and the assignment `data.key.textLen = n` followed by a read
returns `n` whatever the bytes held before. -/
theorem textLen_range (k : KeyEventData) (n : UChar) (s : Storage) :
    0 ≤ k.textLen.val ∧ k.textLen.val ≤ 255 ∧
    (∃ k2 : KeyEventData, k2.textLen = n) ∧
    (KeyEventData.load (KeyEventData.storeTextLen s n)).textLen = n := by
  have h := k.textLen.isLt
  refine ⟨Nat.zero_le _, by omega, ⟨⟨0, 0, false, fun _ => 0, n⟩, rfl⟩, ?_⟩
  rw [KeyEventData.key_load_storeTextLen]

/-- C2, as stated, fails: `keyDownWithKey` and `keyDownWithScroll` carry the
same tag `EventTypeKeyDown` and hold different union members, so no function
of the tag gives the member an envelope holds; and the read `data.key.keyCode`
of the object that was assigned the scroll payload is not refused, it returns
the low 16 bits of the bytes of `deltaX`.  The byte of `data.key.isRepeat` of
that object is 2, the low byte of `deltaY`, which is no value of `bool`. -/
theorem tag_does_not_determine_member :
    keyDownWithKey.type = keyDownWithScroll.type ∧
    keyDownWithKey.data.member = Member.key ∧
    keyDownWithScroll.data.member = Member.scroll ∧
    (¬ ∃ f : EventType → Member, ∀ e : MacEvent, e.data.member = f e.type) ∧
    (zeroObject.assign keyDownWithScroll).key.keyCode = 1 ∧
    (zeroObject.assign keyDownWithScroll).key.isRepeat.byte = 2 ∧
    (zeroObject.assign keyDownWithScroll).key.isRepeat.value = none := by
  refine ⟨rfl, rfl, rfl, ?_, by decide, by decide, by decide⟩
  rintro ⟨f, hf⟩
  have h1 := hf keyDownWithKey
  have h2 := hf keyDownWithScroll
  have h3 : Member.key = Member.scroll := h1.trans h2.symm
  exact Member.noConfusion h3

/-- C2, amended: `type` and `data` are independent fields.  Every tag `t`
with every union value `d`, of any of the four members, is an envelope, whose
`type` reads `t` and whose `data` reads `d`; once it is assigned to an object,
the `type` read back is `t` and the read of the member that `d` holds returns
`d`, whatever the tag; and for every tag `t` and every member `m` there is an
envelope with the tag `t` that holds the member `m`. -/
theorem tag_and_member_independent (t : EventType) (d : MacEventData) (o : MacEventObject)
    (m : Member) :
    (MacEvent.mk t d).type = t ∧ (MacEvent.mk t d).data = d ∧
    (o.assign (MacEvent.mk t d)).type = t ∧
    (o.assign (MacEvent.mk t d)).read d.member = d ∧
    (∃ e : MacEvent, e.type = t ∧ e.data.member = m) := by
  refine ⟨rfl, rfl, rfl, MacEventObject.read_assign o (MacEvent.mk t d), ?_⟩
  cases m with
  | key => exact ⟨⟨t, .key keyCode5⟩, rfl, rfl⟩
  | mouse => exact ⟨⟨t, .mouse mouseX5⟩, rfl, rfl⟩
  | mouseMove => exact ⟨⟨t, .mouseMove ⟨0, 0, 0, 0⟩⟩, rfl, rfl⟩
  | scroll => exact ⟨⟨t, .scroll ⟨0, 0⟩⟩, rfl, rfl⟩

/-- C3, as stated, fails: after `data.key = keyCode5` the read
`data.key.keyCode` is 5; the assignment `data.mouse.x = 0` to the same union
then writes bytes 0 to 7, which hold `keyCode`, and the read returns 0. -/
theorem write_through_other_member_aliases :
    (KeyEventData.load (KeyEventData.store zeroStorage keyCode5)).keyCode = 5 ∧
    (KeyEventData.load
      (MouseEventData.storeX (KeyEventData.store zeroStorage keyCode5) 0)).keyCode = 0 := by
  refine ⟨?_, by decide⟩
  rw [KeyEventData.key_load_store]
  rfl

/-- C3, amended: assigning an envelope to an object, whatever it held, and
reading back `type` and the member that was set returns the values that were
set; and an assignment to one field of a member changes, in the value read
from that same member, that field only. -/
theorem roundtrip_same_member (o : MacEventObject) (e : MacEvent) (s : Storage)
    (kc : UShort) (md : UInt) (r : Bool) (i : Fin 16) (c : CChar) (tl : UChar) (v : Double) :
    (o.assign e).type = e.type ∧
    (o.assign e).read e.data.member = e.data ∧
    KeyEventData.load (KeyEventData.storeKeyCode s kc)
      = { KeyEventData.load s with keyCode := kc } ∧
    KeyEventData.load (KeyEventData.storeModifiers s md)
      = { KeyEventData.load s with modifiers := md } ∧
    KeyEventData.load (KeyEventData.storeIsRepeat s r)
      = { KeyEventData.load s with isRepeat := r } ∧
    KeyEventData.load (KeyEventData.storeTextAt s i c)
      = { KeyEventData.load s with text := Function.update (KeyEventData.load s).text i c } ∧
    KeyEventData.load (KeyEventData.storeTextLen s tl)
      = { KeyEventData.load s with textLen := tl } ∧
    MouseEventData.load (MouseEventData.storeX s v)
      = { MouseEventData.load s with x := v } ∧
    MouseEventData.load (MouseEventData.storeY s v)
      = { MouseEventData.load s with y := v } ∧
    MouseMoveEventData.load (MouseMoveEventData.storeX s v)
      = { MouseMoveEventData.load s with x := v } ∧
    MouseMoveEventData.load (MouseMoveEventData.storeY s v)
      = { MouseMoveEventData.load s with y := v } ∧
    MouseMoveEventData.load (MouseMoveEventData.storeDeltaX s v)
      = { MouseMoveEventData.load s with deltaX := v } ∧
    MouseMoveEventData.load (MouseMoveEventData.storeDeltaY s v)
      = { MouseMoveEventData.load s with deltaY := v } ∧
    ScrollEventData.load (ScrollEventData.storeDeltaX s v)
      = { ScrollEventData.load s with deltaX := v } ∧
    ScrollEventData.load (ScrollEventData.storeDeltaY s v)
      = { ScrollEventData.load s with deltaY := v } :=
  ⟨rfl, MacEventObject.read_assign o e,
    KeyEventData.key_load_storeKeyCode s kc, KeyEventData.key_load_storeModifiers s md,
    KeyEventData.key_load_storeIsRepeat s r, KeyEventData.key_load_storeTextAt s i c,
    KeyEventData.key_load_storeTextLen s tl,
    MouseEventData.mouse_load_storeX s v, MouseEventData.mouse_load_storeY s v,
    MouseMoveEventData.mouseMove_load_storeX s v, MouseMoveEventData.mouseMove_load_storeY s v,
    MouseMoveEventData.mouseMove_load_storeDeltaX s v, MouseMoveEventData.mouseMove_load_storeDeltaY s v,
    ScrollEventData.scroll_load_storeDeltaX s v, ScrollEventData.scroll_load_storeDeltaY s v⟩

/-- C4, as stated, fails: `sizeof(KeyEventData)` is 28 and
`sizeof(MouseMoveEventData)` is 32, so the key payload is not at least as
large as the mouse-move payload. -/
theorem key_smaller_than_mouseMove :
    KeyEventData.layout.size = 28 ∧ MouseMoveEventData.layout.size = 32 ∧
    ¬ (KeyEventData.layout.size ≥ MouseMoveEventData.layout.size) := by
  decide

/-- C4, amended: with the natural C layout the four members have the sizes
28 (key), 16 (mouse), 32 (mouseMove) and 16 (scroll); the key payload is at
least as large as the mouse and scroll payloads, the mouse-move payload is
the largest of the four, and it gives the union its size, 32. -/
theorem mouseMove_is_largest_member (m : Member) :
    KeyEventData.layout.size = 28 ∧ MouseEventData.layout.size = 16 ∧
    MouseMoveEventData.layout.size = 32 ∧ ScrollEventData.layout.size = 16 ∧
    KeyEventData.layout.size ≥ MouseEventData.layout.size ∧
    KeyEventData.layout.size ≥ ScrollEventData.layout.size ∧
    m.layout.size ≤ MouseMoveEventData.layout.size ∧
    MacEventData.layout.size = MouseMoveEventData.layout.size ∧
    MacEventData.layout.size = 32 := by
  refine ⟨by decide, by decide, by decide, by decide, by decide, by decide, ?_, by decide,
    by decide⟩
  cases m <;> decide

/-- C5: `pollMacEvent` returns true exactly when an event was available, and
then the slot holds that event; it returns false exactly when no event was
available. -/
theorem pollMacEvent_true_iff_written (available : Option MacEvent) (outEvent : MacEvent) :
    ((pollMacEvent available outEvent).1 = true ↔
      ∃ e, available = some e ∧ (pollMacEvent available outEvent).2 = e) ∧
    ((pollMacEvent available outEvent).1 = false ↔ available = none) := by
  cases available with
  | none => simp [pollMacEvent]
  | some e => simp [pollMacEvent]

/-- C6, as stated, fails.  The value 7 is a value of type `EventType`, kept
as the `type` of an envelope, and it is none of the six enumerators.  And the
key envelope `keyDownWithKey` and the mouse envelope `mouseDownWithMouse`,
which hold different members, leave the same bytes in the union: the object
assigned the key payload reads as that payload through `data.key` and as the
mouse payload through `data.mouse`, so it does not carry exactly one of the
shapes. -/
theorem undeclared_tag_and_shared_bytes :
    (MacEvent.mk undeclaredTag (.key keyCode5)).type = undeclaredTag ∧
    (¬ ∃ a : Enumerator, a.toEventType = undeclaredTag) ∧
    keyDownWithKey.data.member ≠ mouseDownWithMouse.data.member ∧
    (zeroObject.assign keyDownWithKey).data = (zeroObject.assign mouseDownWithMouse).data ∧
    (zeroObject.assign keyDownWithKey).read .key = .key keyCode5 ∧
    (zeroObject.assign keyDownWithKey).read .mouse = .mouse mouseX5 := by
  have hbytes : (zeroObject.assign keyDownWithKey).data
      = (zeroObject.assign mouseDownWithMouse).data := by
    funext i
    fin_cases i <;> rfl
  refine ⟨rfl, ?_, by decide, hbytes, MacEventObject.read_assign zeroObject keyDownWithKey, ?_⟩
  · rintro ⟨a, ha⟩
    cases a <;> exact absurd ha (by decide)
  · have h := MacEventObject.read_assign zeroObject mouseDownWithMouse
    simp only [MacEventObject.read, MacEventObject.mouse] at h ⊢
    rw [hbytes]
    exact h

/-- C6, amended: the header declares exactly the six enumerators, pairwise
distinct and with pairwise distinct values, and a value of type `EventType` is
one of them exactly when it is at most 5.  The union has exactly the four
members key, mouse, mouseMove and scroll, each of which fits in the bytes of
the union; a payload of any one of the four shapes, assigned with any tag to
any object, is read back unchanged through its member, and so is the tag. -/
theorem six_enumerators_four_members (a b : Enumerator) (t : EventType) (d : MacEventData)
    (o : MacEventObject) (m : Member) :
    (a = .EventTypeKeyDown ∨ a = .EventTypeKeyUp ∨ a = .EventTypeMouseDown ∨
      a = .EventTypeMouseUp ∨ a = .EventTypeMouseMoved ∨ a = .EventTypeScrollWheel) ∧
    Enumerator.declared.length = 6 ∧ Enumerator.declared.Nodup ∧
    (a.toEventType = b.toEventType ↔ a = b) ∧
    ((∃ c : Enumerator, c.toEventType = t) ↔ t.val ≤ 5) ∧
    (m = .key ∨ m = .mouse ∨ m = .mouseMove ∨ m = .scroll) ∧
    m.layout.size ≤ MacEventData.layout.size ∧
    (o.assign (MacEvent.mk t d)).type = t ∧
    (o.assign (MacEvent.mk t d)).read d.member = d := by
  refine ⟨by cases a <;> simp, rfl, by decide, by cases a <;> cases b <;> decide, ?_,
    by cases m <;> simp, by cases m <;> decide, rfl, MacEventObject.read_assign o (MacEvent.mk t d)⟩
  constructor
  · rintro ⟨c, rfl⟩
    cases c <;> decide
  · intro h
    have ht := t.isLt
    have hv : t.val = 0 ∨ t.val = 1 ∨ t.val = 2 ∨ t.val = 3 ∨ t.val = 4 ∨ t.val = 5 := by
      omega
    rcases hv with h0 | h0 | h0 | h0 | h0 | h0
    · exact ⟨.EventTypeKeyDown, Fin.ext h0.symm⟩
    · exact ⟨.EventTypeKeyUp, Fin.ext h0.symm⟩
    · exact ⟨.EventTypeMouseDown, Fin.ext h0.symm⟩
    · exact ⟨.EventTypeMouseUp, Fin.ext h0.symm⟩
    · exact ⟨.EventTypeMouseMoved, Fin.ext h0.symm⟩
    · exact ⟨.EventTypeScrollWheel, Fin.ext h0.symm⟩

/-- C7, as stated, fails: 7 is the encoding of the `EventType` value
`undeclaredTag`, it is not in the range 0 to 5, and no enumerator has it. -/
theorem undeclared_value_has_encoding :
    EventType.toInt undeclaredTag = 7 ∧
    (∃ t : EventType, EventType.toInt t = 7) ∧
    ¬ ((0 : Int) ≤ 7 ∧ (7 : Int) ≤ 5) ∧
    (¬ ∃ a : Enumerator, a.value = 7) := by
  refine ⟨rfl, ⟨undeclaredTag, rfl⟩, by decide, ?_⟩
  rintro ⟨a, ha⟩
  cases a <;> exact absurd ha (by decide)

/-- C7, amended: the six enumerators have the values 0 to 5 in declaration
order, the encoding of the enumerators is injective, and an integer is the
value of an enumerator exactly when it is in the range 0 to 5; an enumerator
taken as a value of type `EventType` keeps its value.  The values of type
`EventType` are those of its underlying type: an integer is the encoding of
one exactly when it is in the range 0 to 4294967295. -/
theorem enumerator_values_consecutive (a b : Enumerator) (z : Int) :
    Enumerator.value .EventTypeKeyDown = 0 ∧ Enumerator.value .EventTypeKeyUp = 1 ∧
    Enumerator.value .EventTypeMouseDown = 2 ∧ Enumerator.value .EventTypeMouseUp = 3 ∧
    Enumerator.value .EventTypeMouseMoved = 4 ∧ Enumerator.value .EventTypeScrollWheel = 5 ∧
    (a.value = b.value ↔ a = b) ∧
    ((∃ c : Enumerator, c.value = z) ↔ 0 ≤ z ∧ z ≤ 5) ∧
    EventType.toInt a.toEventType = a.value ∧
    ((∃ t : EventType, EventType.toInt t = z) ↔ 0 ≤ z ∧ z ≤ 4294967295) := by
  refine ⟨rfl, rfl, rfl, rfl, rfl, rfl, by cases a <;> cases b <;> decide, ?_,
    by cases a <;> rfl, ?_⟩
  · constructor
    · rintro ⟨c, rfl⟩
      cases c <;> decide
    · rintro ⟨h0, h5⟩
      have hz : z = 0 ∨ z = 1 ∨ z = 2 ∨ z = 3 ∨ z = 4 ∨ z = 5 := by omega
      rcases hz with h | h | h | h | h | h
      · exact ⟨.EventTypeKeyDown, h.symm ▸ rfl⟩
      · exact ⟨.EventTypeKeyUp, h.symm ▸ rfl⟩
      · exact ⟨.EventTypeMouseDown, h.symm ▸ rfl⟩
      · exact ⟨.EventTypeMouseUp, h.symm ▸ rfl⟩
      · exact ⟨.EventTypeMouseMoved, h.symm ▸ rfl⟩
      · exact ⟨.EventTypeScrollWheel, h.symm ▸ rfl⟩
  · constructor
    · rintro ⟨t, rfl⟩
      have ht := t.isLt
      simp only [EventType.toInt, Int.ofNat_eq_coe]
      omega
    · rintro ⟨h0, h1⟩
      refine ⟨⟨z.toNat, by omega⟩, ?_⟩
      simp only [EventType.toInt, Int.ofNat_eq_coe]
      omega

end MacosTypes
